import Mathlib

/-!
# Todoist client: project lookups and the sync request builder

Shallow embedding of `project.go` (`ProjectService.GetProjects`,
`GetProjectByID`, `GetProjectByName`) and of the sync request builder that
`todoist_test.go` exercises (`Client.NewRequest`).

Go values are modelled as follows.

* A function returning `(v, err)` returns a pair whose second component is
  `Option GoError` (`none` is the nil error).
* A pointer `*T` is `Option T` (`none` is the nil pointer); dereferencing a
  nil pointer is the outcome `Outcome.panic`.
* A slice is `Slice α`: the nil slice or a sequence of elements.
* The calls a method makes on its client are recorded, in program order, in
  the `calls` field of `Run`.
-/

set_option autoImplicit false

namespace Todoist

/-! ## Data model -/

/-- Go `error` values: the sentinel `types.ErrNotFound` and every other
error (request construction, transport, decode), told apart by a message. -/
inductive GoError where
  | ErrNotFound
  | other (msg : String)
  deriving DecidableEq, Repr

/-- Modelled from the spec: `types.Project` (package `types` is imported by
`project.go` only). The spec gives a project an identifier and a name; these are
the two fields `project.go` reads (`project.ID`, `project.Name`). The Go `int`
identifier is an integer; only equality of identifiers is used. -/
structure Project where
  ID : Int
  Name : String
  deriving DecidableEq, Repr

/-- A Go slice value: `nil`, or a (possibly empty) sequence of elements. -/
inductive Slice (α : Type) where
  | nil
  | of (elems : List α)
  deriving DecidableEq, Repr

/-- The elements a `for range` loop visits; the nil slice has none. -/
def Slice.elems {α : Type} : Slice α → List α
  | Slice.nil => []
  | Slice.of xs => xs

/-- Modelled from the spec: `types.Response`, of which `project.go` reads the
field `Projects` of type `[]*types.Project` (JSON key `projects`). -/
structure Response where
  Projects : Slice (Option Project)
  deriving DecidableEq, Repr

/-- The zero value `types.Response{}`: every field nil. -/
def Response.zero : Response := ⟨Slice.nil⟩

/-- The Go values that `project.go` passes as arguments to `NewRequest`. -/
inductive GoValue where
  | nil
  | string (s : String)
  | stringSlice (xs : List String)
  | ptr (v : GoValue)
  deriving DecidableEq, Repr

/-- Outcome of running a Go function body: it returns a value or panics. -/
inductive Outcome (α : Type) where
  | ret (v : α)
  | panic
  deriving DecidableEq, Repr

/-- The client `s.c` as `project.go` uses it. `Client` itself is declared
outside `project.go`, so its methods are parameters: `NewRequest` takes the
three positional arguments of the call, `Do` is the transport call (its
context argument is the constant `context.Background()`), and `Decode` is
`json.NewDecoder(res.Body).Decode(response)` applied to the response and the
struct it fills. -/
structure Client (ρ σ : Type) where
  NewRequest : GoValue → GoValue → GoValue → Except GoError ρ
  Do : ρ → Except GoError σ
  Decode : σ → Response → Except GoError Response

/-- Calls made on the client and on the response body, in program order. -/
inductive Call (ρ σ : Type) where
  | Log (msg : String)
  | LogProjects (msg : String) (projects : Slice (Option Project))
  | NewRequest (a1 a2 a3 : GoValue)
  | Do (req : ρ)
  | Decode (res : σ)
  | Close (res : σ)
  deriving DecidableEq, Repr

/-- A finished run: the calls made and the value returned. -/
structure Run (ρ σ α : Type) where
  calls : List (Call ρ σ)
  result : α

/-- The positional arguments of a `NewRequest` call, if the call is one. -/
def Call.builderArgs {ρ σ : Type} : Call ρ σ → Option (GoValue × GoValue × GoValue)
  | Call.NewRequest a1 a2 a3 => some (a1, a2, a3)
  | _ => none

/-- The argument triples of all `NewRequest` calls of a trace, in order. -/
def builderCalls {ρ σ : Type} (calls : List (Call ρ σ)) : List (GoValue × GoValue × GoValue) :=
  calls.filterMap Call.builderArgs

/-! ## `project.go` -/

/-- The method `ProjectService.GetProjects` (project.go, lines 14-33). -/
def GetProjects {ρ σ : Type} (c : Client ρ σ) :
    Run ρ σ (Slice (Option Project) × Option GoError) :=
  let a1 := GoValue.string "*"
  let a2 := GoValue.nil
  let a3 := GoValue.ptr (GoValue.stringSlice ["projects"])
  let t := [Call.Log "GetProjects called", Call.NewRequest a1 a2 a3]
  match c.NewRequest a1 a2 a3 with
  | Except.error err => ⟨t, (Slice.nil, some err)⟩
  | Except.ok req =>
    match c.Do req with
    | Except.error err => ⟨t ++ [Call.Do req], (Slice.nil, some err)⟩
    | Except.ok res =>
      match c.Decode res Response.zero with
      | Except.error err =>
        ⟨t ++ [Call.Do req, Call.Decode res, Call.Close res], (Slice.nil, some err)⟩
      | Except.ok response =>
        ⟨t ++ [Call.Do req, Call.Decode res, Call.Close res], (response.Projects, none)⟩

/-- A loop `for _, x := range xs` whose body may leave the enclosing function:
`body x = some r` is a `return` (or panic) with outcome `r`, `body x = none`
falls through to the next element; `after` is the code that follows the loop. -/
def rangeLoop {α β : Type} (body : α → Option β) (after : β) : List α → β
  | [] => after
  | x :: rest =>
    match body x with
    | some r => r
    | none => rangeLoop body after rest

/-- The loop body of `GetProjectByID` (project.go, lines 45-49): `project.ID`
dereferences the element; a match returns the element (line 46), otherwise
line 49 returns not-found. -/
def GetProjectByID.body (id : Int) (project : Option Project) :
    Option (Outcome (Option Project × Option GoError)) :=
  match project with
  | none => some Outcome.panic
  | some p =>
    if p.ID = id then some (Outcome.ret (some p, none))
    else some (Outcome.ret (none, some GoError.ErrNotFound))

/-- The `for range` loop of `GetProjectByID` with the `return` after it
(project.go, lines 44-52). -/
def GetProjectByID.scan (id : Int) (projects : List (Option Project)) :
    Outcome (Option Project × Option GoError) :=
  rangeLoop (GetProjectByID.body id) (Outcome.ret (none, some GoError.ErrNotFound)) projects

/-- The method `ProjectService.GetProjectByID` (project.go, lines 35-53). -/
def GetProjectByID {ρ σ : Type} (c : Client ρ σ) (id : Int) :
    Run ρ σ (Outcome (Option Project × Option GoError)) :=
  let r := GetProjects c
  let t := Call.Log "GetProjectByID called" :: r.calls
  match r.result with
  | (_, some err) => ⟨t, Outcome.ret (none, some err)⟩
  | (projects, none) =>
    ⟨t ++ [Call.LogProjects "projects" projects], GetProjectByID.scan id projects.elems⟩

/-- The loop body of `GetProjectByName` (project.go, lines 63-67). -/
def GetProjectByName.body (name : String) (project : Option Project) :
    Option (Outcome (Option Project × Option GoError)) :=
  match project with
  | none => some Outcome.panic
  | some p =>
    if p.Name = name then some (Outcome.ret (some p, none))
    else some (Outcome.ret (none, some GoError.ErrNotFound))

/-- The `for range` loop of `GetProjectByName` with the `return` after it
(project.go, lines 62-70). -/
def GetProjectByName.scan (name : String) (projects : List (Option Project)) :
    Outcome (Option Project × Option GoError) :=
  rangeLoop (GetProjectByName.body name) (Outcome.ret (none, some GoError.ErrNotFound)) projects

/-- The method `ProjectService.GetProjectByName` (project.go, lines 55-71). -/
def GetProjectByName {ρ σ : Type} (c : Client ρ σ) (name : String) :
    Run ρ σ (Outcome (Option Project × Option GoError)) :=
  let r := GetProjects c
  let t := Call.Log "GetProjectByName called" :: r.calls
  match r.result with
  | (_, some err) => ⟨t, Outcome.ret (none, some err)⟩
  | (projects, none) => ⟨t, GetProjectByName.scan name projects.elems⟩

/-! ## Example clients -/

/-- Modelled from the spec: the body of a sync response as the Sync Response
Decoder (§4.3) sees it: malformed JSON, or a well-formed object whose
`projects` key is missing (`none`) or holds a value. -/
inductive Body where
  | malformed (err : GoError)
  | object (projects : Option (Slice (Option Project)))
  deriving DecidableEq, Repr

/-- Modelled from the spec: the Sync Response Decoder (§4.3). Malformed JSON
is a decode error; a key that is present overwrites the field, a missing key
leaves the field as it was. -/
def DecodeResponse (body : Body) (into : Response) : Except GoError Response :=
  match body with
  | Body.malformed err => Except.error err
  | Body.object none => Except.ok into
  | Body.object (some ps) => Except.ok { into with Projects := ps }

/-- A client whose builder and transport succeed and whose transport answers
with the given body. -/
def serverClient (body : Body) : Client Unit Body where
  NewRequest := fun _ _ _ => Except.ok ()
  Do := fun _ => Except.ok body
  Decode := DecodeResponse

/-- A client whose transport fails with the given error. -/
def offlineClient (err : GoError) : Client Unit Body where
  NewRequest := fun _ _ _ => Except.ok ()
  Do := fun _ => Except.error err
  Decode := DecodeResponse

/-- Three projects with identifiers 1, 2, 3 and names A, B, C. -/
def threeProjects : List (Option Project) :=
  [some ⟨1, "A"⟩, some ⟨2, "B"⟩, some ⟨3, "C"⟩]

/-! ## The sync request builder

`Client.NewRequest` is exercised by `Test_NewRequest` (todoist_test.go, lines
187-273) with the signature `NewRequest(syncToken string, resourceTypes
[]string, commands []*Command)`; its body is not part of the sources, so it is
modelled from §4.2 of the specification. -/

namespace Sync

/-- Modelled from the spec: the error kinds of request construction (§7). -/
inductive BuildError where
  | SerializationError
  | URLError
  deriving DecidableEq, Repr

/-- Modelled from the spec: the opaque `args` payload of a command (§3, §9): a
string, another serializable value given by its JSON encoding, or a value
the serializer cannot represent (the test passes an HTTP client). -/
inductive Args where
  | string (s : String)
  | json (encoding : String)
  | unserializable
  deriving DecidableEq, Repr

/-- Modelled from the spec: `Command` (§3), with the wire fields `type`, `args`,
`uuid`, `temp_id`. `Kind` is the Go field `Type`. -/
structure Command where
  Kind : String
  Args : Args
  UUID : String
  TempID : String
  deriving DecidableEq, Repr

/-- Modelled from the spec: a base URL (§3, §4.2); `wellFormed` says whether the
sync path can be resolved against it. -/
structure URL where
  text : String
  wellFormed : Bool
  deriving DecidableEq, Repr

/-- Modelled from the spec: the client configuration the builder reads (§3). -/
structure Client where
  APIToken : String
  userAgent : String
  BaseURL : URL
  deriving DecidableEq, Repr

/-- Form values (`url.Values`): keys with their values, in insertion order. -/
abbrev Form := List (String × List String)

/-- All values stored under a key (`req.Form[key]`). -/
def Form.values (f : Form) (key : String) : List String :=
  (f.filter (fun kv => kv.1 == key)).flatMap (fun kv => kv.2)

/-- The first value under a key, or the empty string (`req.FormValue(key)`). -/
def Form.get (f : Form) (key : String) : String :=
  ((f.values key).head?).getD ""

/-- Modelled from the spec: the request the builder produces (§4.2). -/
structure Request where
  Method : String
  URL : String
  Header : List (String × String)
  Form : Form
  deriving DecidableEq, Repr

/-- The double quote character. -/
def quoteChar : Char := Char.ofNat 34

/-- The backslash character. -/
def backslashChar : Char := Char.ofNat 92

/-- A hexadecimal digit, lower case. -/
def hexDigit (n : Nat) : Char :=
  if n < 10 then Char.ofNat (48 + n) else Char.ofNat (87 + n)

/-- JSON escaping of one character of a string: quote, backslash and control
characters are escaped, every other character stands for itself. -/
def jsonEscape (ch : Char) : List Char :=
  if ch = quoteChar then [backslashChar, quoteChar]
  else if ch = backslashChar then [backslashChar, backslashChar]
  else if ch = Char.ofNat 10 then [backslashChar, 'n']
  else if ch = Char.ofNat 13 then [backslashChar, 'r']
  else if ch = Char.ofNat 9 then [backslashChar, 't']
  else if ch.toNat < 32 then
    [backslashChar, 'u', '0', '0', hexDigit (ch.toNat / 16), hexDigit (ch.toNat % 16)]
  else [ch]

/-- A string as a JSON string literal. -/
def jsonString (s : String) : String :=
  String.mk ([quoteChar] ++ s.toList.flatMap jsonEscape ++ [quoteChar])

/-- Already encoded JSON values as a JSON array. -/
def jsonArray (items : List String) : String :=
  "[" ++ ",".intercalate items ++ "]"

/-- Serialization of the `args` payload; `none` when it cannot be represented. -/
def Args.marshal : Args → Option String
  | Args.string s => some (jsonString s)
  | Args.json encoding => some encoding
  | Args.unserializable => none

/-- Modelled from the spec: serialization of one command, fields in the order
type, args, uuid, temp_id (§4.2, §6). -/
def Command.marshal (cmd : Command) : Except BuildError String :=
  match cmd.Args.marshal with
  | none => Except.error BuildError.SerializationError
  | some args =>
    Except.ok ("\x7b\"type\":" ++ jsonString cmd.Kind
      ++ ",\"args\":" ++ args
      ++ ",\"uuid\":" ++ jsonString cmd.UUID
      ++ ",\"temp_id\":" ++ jsonString cmd.TempID ++ "\x7d")

/-- Serialization of the command list: the first command that cannot be
encoded aborts the whole encoding. -/
def marshalCommands : List Command → Except BuildError (List String)
  | [] => Except.ok []
  | cmd :: rest =>
    match cmd.marshal with
    | Except.error e => Except.error e
    | Except.ok enc =>
      match marshalCommands rest with
      | Except.error e => Except.error e
      | Except.ok encs => Except.ok (enc :: encs)

/-- Resolution of the sync endpoint against the base URL (§4.2, §6). -/
def URL.resolve (base : URL) (path : String) : Except BuildError String :=
  if base.wellFormed then Except.ok (base.text ++ "/" ++ path)
  else Except.error BuildError.URLError

/-- Modelled from the spec: `Client.NewRequest`, the Sync Request Builder
`BuildRequest(syncToken, resourceTypes, commands)` of §4.2: default the sync
token to `*` and the resource types to `all`, encode the resource types as one
JSON array, add `commands` only for a non-empty list, always add `token`, POST
with the form content type, and set `User-Agent` only when configured. -/
def NewRequest (c : Client) (syncToken : String) (resourceTypes : List String)
    (commands : List Command) : Except BuildError Request :=
  let syncToken := if syncToken = "" then "*" else syncToken
  let resourceTypes := if resourceTypes.length = 0 then ["all"] else resourceTypes
  let form : Form :=
    [("token", [c.APIToken]),
     ("sync_token", [syncToken]),
     ("resource_types", [jsonArray (resourceTypes.map jsonString)])]
  let withCommands : Except BuildError Form :=
    if commands.length = 0 then Except.ok form
    else
      match marshalCommands commands with
      | Except.error e => Except.error e
      | Except.ok encs => Except.ok (form ++ [("commands", [jsonArray encs])])
  match withCommands with
  | Except.error e => Except.error e
  | Except.ok form =>
    match c.BaseURL.resolve "sync" with
    | Except.error e => Except.error e
    | Except.ok url =>
      let header := [("Content-Type", "application/x-www-form-urlencoded")]
      let header := if c.userAgent = "" then header else header ++ [("User-Agent", c.userAgent)]
      Except.ok { Method := "POST", URL := url, Header := header, Form := form }

/-- The client of `Test_NewRequest`: API token `12345`. -/
def testClient : Client :=
  { APIToken := "12345", userAgent := "go-todoist", BaseURL := ⟨"https://api.todoist.com", true⟩ }

/-- The command of `Test_NewRequest` (todoist_test.go, lines 229-234). -/
def testCommand : Command :=
  { Kind := "command_type", Args := Args.string "args", UUID := "uuid", TempID := "temp_id" }

/-- Whether every command of the list has serializable `args`. -/
def serializable (commands : List Command) : Bool :=
  commands.all (fun cmd => cmd.Args.marshal.isSome)

/-! ### Reading JSON back

The decoder below follows the JSON grammar for compact text (no insignificant
white space) and is written independently of the encoder above. It states
what the encoded form values mean. -/

/-- States of the string-literal decoder: between characters, after a
backslash, or inside a `u` escape with the digits read so far. -/
inductive StringState where
  | normal
  | escape
  | unicode (digits : Nat) (value : Nat)
  deriving DecidableEq, Repr

/-- The value of a hexadecimal digit, in either case. -/
def hexValue (ch : Char) : Option Nat :=
  if 48 ≤ ch.toNat ∧ ch.toNat ≤ 57 then some (ch.toNat - 48)
  else if 97 ≤ ch.toNat ∧ ch.toNat ≤ 102 then some (ch.toNat - 87)
  else if 65 ≤ ch.toNat ∧ ch.toNat ≤ 70 then some (ch.toNat - 55)
  else none

/-- The character a one-letter escape stands for. -/
def unescape (ch : Char) : Option Char :=
  if ch = quoteChar then some quoteChar
  else if ch = backslashChar then some backslashChar
  else if ch = '/' then some '/'
  else if ch = 'b' then some (Char.ofNat 8)
  else if ch = 'f' then some (Char.ofNat 12)
  else if ch = 'n' then some (Char.ofNat 10)
  else if ch = 'r' then some (Char.ofNat 13)
  else if ch = 't' then some (Char.ofNat 9)
  else none

/-- Decoding of the inside of a JSON string literal, after its opening quote:
the decoded characters and the text that follows the closing quote. Raw
control characters, unknown escapes and escapes of surrogate halves are
rejected. -/
def decodeChars : StringState → List Char → Option (List Char × List Char)
  | _, [] => none
  | StringState.normal, ch :: rest =>
    if ch = quoteChar then some ([], rest)
    else if ch = backslashChar then decodeChars StringState.escape rest
    else if ch.toNat < 32 then none
    else (decodeChars StringState.normal rest).map (fun r => (ch :: r.1, r.2))
  | StringState.escape, ch :: rest =>
    if ch = 'u' then decodeChars (StringState.unicode 0 0) rest
    else
      match unescape ch with
      | none => none
      | some decoded =>
        (decodeChars StringState.normal rest).map (fun r => (decoded :: r.1, r.2))
  | StringState.unicode digits value, ch :: rest =>
    match hexValue ch with
    | none => none
    | some v =>
      if digits = 3 then
        if 55296 ≤ value * 16 + v ∧ value * 16 + v ≤ 57343 then none
        else
          (decodeChars StringState.normal rest).map
            (fun r => (Char.ofNat (value * 16 + v) :: r.1, r.2))
      else decodeChars (StringState.unicode (digits + 1) (value * 16 + v)) rest

/-- The string a JSON string literal denotes; `none` when the text is not
exactly one string literal. -/
def decodeString (text : String) : Option String :=
  match text.data with
  | [] => none
  | ch :: body =>
    if ch = quoteChar then
      match decodeChars StringState.normal body with
      | some (chars, []) => some (String.mk chars)
      | _ => none
    else none

/-- Decoding of the items of a non-empty JSON array of strings, after the
opening bracket; the first argument bounds the number of items. -/
def decodeItems : Nat → List Char → Option (List String)
  | 0, _ => none
  | _ + 1, [] => none
  | fuel + 1, ch :: body =>
    if ch = quoteChar then
      match decodeChars StringState.normal body with
      | none => none
      | some (_, []) => none
      | some (chars, sep :: rest) =>
        if sep = ']' then (if rest = [] then some [String.mk chars] else none)
        else if sep = ',' then
          (decodeItems fuel rest).map (fun items => String.mk chars :: items)
        else none
    else none

/-- The list of strings a JSON array of strings denotes; `none` when the text
is not such an array. -/
def decodeStringArray (text : String) : Option (List String) :=
  match text.data with
  | [] => none
  | ch :: rest =>
    if ch = '[' then (if rest = [']'] then some [] else decodeItems rest.length rest)
    else none

end Sync

/-! ## Shared lemmas -/

theorem GetProjects_result_of_ok {ρ σ : Type} (c : Client ρ σ) (req : ρ) (res : σ)
    (response : Response)
    (h1 : c.NewRequest (GoValue.string "*") GoValue.nil
      (GoValue.ptr (GoValue.stringSlice ["projects"])) = Except.ok req)
    (h2 : c.Do req = Except.ok res)
    (h3 : c.Decode res Response.zero = Except.ok response) :
    (GetProjects c).result = (response.Projects, none) := by
  simp [GetProjects, h1, h2, h3]

theorem GetProjects_error_nil {ρ σ : Type} (c : Client ρ σ) (e : GoError)
    (h : (GetProjects c).result.2 = some e) :
    (GetProjects c).result = (Slice.nil, some e) := by
  revert h
  unfold GetProjects
  simp only []
  split
  · intro h; simp_all
  · split
    · intro h; simp_all
    · split
      · intro h; simp_all
      · intro h; simp at h

theorem GetProjectByID_result_of_ok {ρ σ : Type} (c : Client ρ σ) (id : Int)
    (projects : Slice (Option Project)) (h : (GetProjects c).result = (projects, none)) :
    (GetProjectByID c id).result = GetProjectByID.scan id projects.elems := by
  simp [GetProjectByID, h]

theorem GetProjectByName_result_of_ok {ρ σ : Type} (c : Client ρ σ) (name : String)
    (projects : Slice (Option Project)) (h : (GetProjects c).result = (projects, none)) :
    (GetProjectByName c name).result = GetProjectByName.scan name projects.elems := by
  simp [GetProjectByName, h]

theorem GetProjectByID_result_of_error {ρ σ : Type} (c : Client ρ σ) (id : Int)
    (projects : Slice (Option Project)) (e : GoError)
    (h : (GetProjects c).result = (projects, some e)) :
    (GetProjectByID c id).result = Outcome.ret (none, some e) := by
  simp [GetProjectByID, h]

theorem GetProjectByName_result_of_error {ρ σ : Type} (c : Client ρ σ) (name : String)
    (projects : Slice (Option Project)) (e : GoError)
    (h : (GetProjects c).result = (projects, some e)) :
    (GetProjectByName c name).result = Outcome.ret (none, some e) := by
  simp [GetProjectByName, h]

theorem GetProjectByID_scan_nil (id : Int) :
    GetProjectByID.scan id [] = Outcome.ret (none, some GoError.ErrNotFound) := rfl

theorem GetProjectByID_scan_nil_pointer (id : Int) (rest : List (Option Project)) :
    GetProjectByID.scan id (none :: rest) = Outcome.panic := rfl

theorem GetProjectByID_scan_cons (id : Int) (p : Project) (rest : List (Option Project)) :
    GetProjectByID.scan id (some p :: rest)
      = (if p.ID = id then Outcome.ret (some p, none)
         else Outcome.ret (none, some GoError.ErrNotFound)) := by
  by_cases h : p.ID = id <;> simp [GetProjectByID.scan, rangeLoop, GetProjectByID.body, h]

theorem GetProjectByName_scan_nil (name : String) :
    GetProjectByName.scan name [] = Outcome.ret (none, some GoError.ErrNotFound) := rfl

theorem GetProjectByName_scan_nil_pointer (name : String) (rest : List (Option Project)) :
    GetProjectByName.scan name (none :: rest) = Outcome.panic := rfl

theorem GetProjectByName_scan_cons (name : String) (p : Project)
    (rest : List (Option Project)) :
    GetProjectByName.scan name (some p :: rest)
      = (if p.Name = name then Outcome.ret (some p, none)
         else Outcome.ret (none, some GoError.ErrNotFound)) := by
  by_cases h : p.Name = name <;>
    simp [GetProjectByName.scan, rangeLoop, GetProjectByName.body, h]

namespace Sync

/-! ## Shared lemmas on the builder -/

theorem NewRequest_form (c : Client) (syncToken : String) (resourceTypes : List String)
    (commands : List Command) (req : Request)
    (h : NewRequest c syncToken resourceTypes commands = Except.ok req) :
    ∃ encs, marshalCommands commands = Except.ok encs ∧
      req.Form =
        [("token", [c.APIToken]),
         ("sync_token", [if syncToken = "" then "*" else syncToken]),
         ("resource_types",
           [jsonArray ((if resourceTypes.length = 0 then ["all"] else resourceTypes).map
             jsonString)])]
        ++ (if commands.length = 0 then [] else [("commands", [jsonArray encs])]) := by
  unfold NewRequest at h
  simp only [] at h
  by_cases hc : commands.length = 0
  · have hnil : commands = [] := List.length_eq_zero.mp hc
    subst hnil
    refine ⟨[], rfl, ?_⟩
    simp only [List.length_nil, if_true] at h
    split at h
    · cases h
    · cases h
      simp
  · simp only [hc, if_false] at h
    cases hm : marshalCommands commands with
    | error e => simp [hm] at h
    | ok encs =>
      refine ⟨encs, rfl, ?_⟩
      simp only [hm] at h
      split at h
      · cases h
      · cases h
        simp [hc]

theorem NewRequest_produces (c : Client) (syncToken : String) (resourceTypes : List String)
    (commands : List Command) (encs : List String)
    (hURL : c.BaseURL.wellFormed = true)
    (hm : marshalCommands commands = Except.ok encs) :
    ∃ req, NewRequest c syncToken resourceTypes commands = Except.ok req := by
  unfold NewRequest
  by_cases hc : commands.length = 0
  · simp [hc, URL.resolve, hURL]
  · simp [hc, hm, URL.resolve, hURL]

theorem marshalCommands_of_serializable (commands : List Command)
    (h : serializable commands = true) :
    ∃ encs, marshalCommands commands = Except.ok encs := by
  induction commands with
  | nil => exact ⟨[], rfl⟩
  | cons cmd rest ih =>
    simp only [serializable, List.all_cons, Bool.and_eq_true] at h
    obtain ⟨encs, hrest⟩ := ih (by simpa [serializable] using h.2)
    cases ha : cmd.Args.marshal with
    | none => simp [ha] at h
    | some a =>
      simp only [marshalCommands, Command.marshal, ha, hrest]
      exact ⟨_, rfl⟩

theorem intercalate_go_length (acc sep : String) (items : List String) :
    (String.intercalate.go acc sep items).length
      = acc.length + (items.map (fun a => sep.length + a.length)).sum := by
  induction items generalizing acc with
  | nil => simp [String.intercalate.go]
  | cons a rest ih =>
    simp only [String.intercalate.go, ih, String.length_append, List.map_cons, List.sum_cons]
    omega

theorem intercalate_length (sep : String) (items : List String) :
    (sep.intercalate items).length + sep.length
      = (items.map (fun a => sep.length + a.length)).sum
        + (if items = [] then sep.length else 0) := by
  cases items with
  | nil => simp [String.intercalate]
  | cons a rest =>
    simp only [String.intercalate, intercalate_go_length, List.map_cons, List.sum_cons]
    simp
    omega

theorem jsonEscape_length_pos (ch : Char) : 1 ≤ (jsonEscape ch).length := by
  unfold jsonEscape
  split_ifs <;> simp

theorem flatMap_jsonEscape_length (chars : List Char) :
    chars.length ≤ (chars.flatMap jsonEscape).length := by
  induction chars with
  | nil => simp
  | cons ch rest ih =>
    have := jsonEscape_length_pos ch
    simp only [List.flatMap_cons, List.length_append, List.length_cons]
    omega

theorem jsonString_length (s : String) : s.length + 2 ≤ (jsonString s).length := by
  have := flatMap_jsonEscape_length s.data
  simp only [jsonString, String.toList, String.length, List.length_append, List.length_cons,
    List.length_nil]
  omega

theorem sum_quoted_ge (names : List String) :
    (names.map (fun a => 1 + a.length)).sum
      ≤ ((names.map jsonString).map (fun a => 1 + a.length)).sum := by
  induction names with
  | nil => simp
  | cons a rest ih =>
    have := jsonString_length a
    simp only [List.map_cons, List.sum_cons]
    omega

theorem jsonArray_length_gt (names : List String) :
    (",".intercalate names).length < (jsonArray (names.map jsonString)).length := by
  have h1 := intercalate_length "," names
  have h2 := intercalate_length "," (names.map jsonString)
  have h3 := sum_quoted_ge names
  have hsep : ("," : String).length = 1 := rfl
  have hl : ("[" : String).length = 1 := rfl
  have hr : ("]" : String).length = 1 := rfl
  simp only [hsep, List.map_eq_nil_iff] at h1 h2
  simp only [jsonArray, String.length_append, hl, hr]
  split_ifs at h1 h2 <;> omega

theorem jsonArray_ne_comma_joined (names : List String) :
    jsonArray (names.map jsonString) ≠ ",".intercalate names := by
  intro h
  have := jsonArray_length_gt names
  rw [h] at this
  exact Nat.lt_irrefl _ this

theorem jsonEscape_plain (ch : Char)
    (h : ch ≠ quoteChar ∧ ch ≠ backslashChar ∧ 32 ≤ ch.toNat) : jsonEscape ch = [ch] := by
  obtain ⟨h1, h2, h3⟩ := h
  have h10 : ch ≠ Char.ofNat 10 := by
    intro hc
    rw [hc] at h3
    exact absurd h3 (by decide)
  have h13 : ch ≠ Char.ofNat 13 := by
    intro hc
    rw [hc] at h3
    exact absurd h3 (by decide)
  have h9 : ch ≠ Char.ofNat 9 := by
    intro hc
    rw [hc] at h3
    exact absurd h3 (by decide)
  have h32 : ¬ ch.toNat < 32 := by omega
  simp [jsonEscape, h1, h2, h10, h13, h9, h32]

theorem jsonString_plain (s : String)
    (h : ∀ ch ∈ s.toList, ch ≠ quoteChar ∧ ch ≠ backslashChar ∧ 32 ≤ ch.toNat) :
    jsonString s = "\"" ++ s ++ "\"" := by
  have hflat : ∀ chars : List Char,
      (∀ ch ∈ chars, ch ≠ quoteChar ∧ ch ≠ backslashChar ∧ 32 ≤ ch.toNat) →
      chars.flatMap jsonEscape = chars := by
    intro chars
    induction chars with
    | nil => intro _; rfl
    | cons ch rest ih =>
      intro hall
      simp only [List.flatMap_cons]
      rw [jsonEscape_plain ch (hall ch (List.mem_cons_self _ _)),
        ih (fun x hx => hall x (List.mem_cons_of_mem _ hx))]
      rfl
  apply String.ext
  simp only [jsonString, hflat s.toList h, String.data_append]
  rfl

theorem hexValue_hexDigit (k : Nat) (h : k < 16) : hexValue (hexDigit k) = some k := by
  interval_cases k <;> rfl

theorem decodeChars_jsonEscape (ch : Char) (rest : List Char) :
    decodeChars StringState.normal (jsonEscape ch ++ rest)
      = (decodeChars StringState.normal rest).map (fun r => (ch :: r.1, r.2)) := by
  have hbq : backslashChar ≠ quoteChar := by decide
  have hqu : quoteChar ≠ 'u' := by decide
  have hbu : backslashChar ≠ 'u' := by decide
  by_cases h1 : ch = quoteChar
  · subst h1
    simp [jsonEscape, decodeChars, hbq, hqu, unescape]
  by_cases h2 : ch = backslashChar
  · subst h2
    simp [jsonEscape, decodeChars, hbq, hbu, unescape]
  by_cases h3 : ch = Char.ofNat 10
  · subst h3
    have e : jsonEscape (Char.ofNat 10) = [backslashChar, 'n'] := by decide
    have u : unescape 'n' = some (Char.ofNat 10) := by decide
    have nu : ('n' : Char) ≠ 'u' := by decide
    simp [e, decodeChars, hbq, u, nu]
  by_cases h4 : ch = Char.ofNat 13
  · subst h4
    have e : jsonEscape (Char.ofNat 13) = [backslashChar, 'r'] := by decide
    have u : unescape 'r' = some (Char.ofNat 13) := by decide
    have nu : ('r' : Char) ≠ 'u' := by decide
    simp [e, decodeChars, hbq, u, nu]
  by_cases h5 : ch = Char.ofNat 9
  · subst h5
    have e : jsonEscape (Char.ofNat 9) = [backslashChar, 't'] := by decide
    have u : unescape 't' = some (Char.ofNat 9) := by decide
    have nu : ('t' : Char) ≠ 'u' := by decide
    simp [e, decodeChars, hbq, u, nu]
  by_cases h6 : ch.toNat < 32
  · have e : jsonEscape ch = [backslashChar, 'u', '0', '0', hexDigit (ch.toNat / 16),
        hexDigit (ch.toNat % 16)] := by
      simp [jsonEscape, h1, h2, h3, h4, h5, h6]
    have z : hexValue '0' = some 0 := by decide
    have d1 : hexValue (hexDigit (ch.toNat / 16)) = some (ch.toNat / 16) :=
      hexValue_hexDigit _ (by omega)
    have d2 : hexValue (hexDigit (ch.toNat % 16)) = some (ch.toNat % 16) :=
      hexValue_hexDigit _ (by omega)
    have hval : ch.toNat / 16 * 16 + ch.toNat % 16 = ch.toNat := by omega
    have hns : ¬ (55296 ≤ ch.toNat ∧ ch.toNat ≤ 57343) := by omega
    simp [e, decodeChars, hbq, z, d1, d2, hval, hns]
  · have e : jsonEscape ch = [ch] := by
      simp [jsonEscape, h1, h2, h3, h4, h5, h6]
    simp [e, decodeChars, h1, h2, h6]

theorem decodeChars_flatMap_jsonEscape (chars rest : List Char) :
    decodeChars StringState.normal (chars.flatMap jsonEscape ++ quoteChar :: rest)
      = some (chars, rest) := by
  induction chars with
  | nil => simp [decodeChars]
  | cons ch tail ih =>
    rw [List.flatMap_cons, List.append_assoc, decodeChars_jsonEscape, ih]
    rfl

theorem jsonString_data (s : String) :
    (jsonString s).data = quoteChar :: (s.data.flatMap jsonEscape ++ [quoteChar]) := by
  simp [jsonString, String.toList]

theorem decodeString_jsonString (s : String) : decodeString (jsonString s) = some s := by
  unfold decodeString
  rw [jsonString_data]
  simp only [if_true]
  rw [decodeChars_flatMap_jsonEscape]

theorem intercalate_go_data (acc sep : String) (items : List String) :
    (String.intercalate.go acc sep items).data
      = acc.data ++ items.flatMap (fun s => sep.data ++ s.data) := by
  induction items generalizing acc with
  | nil => simp [String.intercalate.go]
  | cons a rest ih =>
    simp [String.intercalate.go, ih, String.data_append, List.append_assoc]

theorem intercalate_cons_data (sep a : String) (rest : List String) :
    (sep.intercalate (a :: rest)).data
      = a.data ++ rest.flatMap (fun s => sep.data ++ s.data) := by
  simp [String.intercalate, intercalate_go_data]

theorem decodeItems_encoded (name : String) (names : List String) (fuel : Nat)
    (hfuel : names.length < fuel) :
    decodeItems fuel ((jsonString name).data
        ++ (names.flatMap (fun s => ',' :: (jsonString s).data) ++ [']']))
      = some (name :: names) := by
  induction names generalizing name fuel with
  | nil =>
    cases fuel with
    | zero => simp at hfuel
    | succ f =>
      rw [jsonString_data]
      simp only [List.flatMap_nil, List.nil_append, List.cons_append, List.append_assoc]
      simp only [decodeItems, if_true, decodeChars_flatMap_jsonEscape]
  | cons b rest ih =>
    cases fuel with
    | zero => simp at hfuel
    | succ f =>
      have hf : rest.length < f := by
        simp only [List.length_cons] at hfuel
        omega
      rw [jsonString_data]
      simp only [List.flatMap_cons, List.cons_append, List.append_assoc, List.nil_append]
      simp only [decodeItems, if_true, decodeChars_flatMap_jsonEscape]
      have hne : (',' : Char) ≠ ']' := by decide
      simp only [hne, if_false, if_true]
      have := ih b f hf
      simp only [List.cons_append, List.nil_append, List.append_assoc] at this
      rw [this]
      rfl

theorem encoded_items_length (names : List String) :
    names.length ≤ (names.flatMap (fun s => ',' :: (jsonString s).data)).length := by
  induction names with
  | nil => simp
  | cons a rest ih =>
    simp only [List.flatMap_cons, List.length_append, List.length_cons]
    omega

theorem jsonArray_data (a : String) (rest : List String) :
    (jsonArray ((a :: rest).map jsonString)).data
      = '[' :: ((jsonString a).data
          ++ (rest.flatMap (fun s => ',' :: (jsonString s).data) ++ [']'])) := by
  have hl : ("[" : String).data = ['['] := rfl
  have hr : ("]" : String).data = [']'] := rfl
  have hcomma : ("," : String).data = [','] := rfl
  simp only [jsonArray, List.map_cons, String.data_append, intercalate_cons_data, hl, hr,
    hcomma, List.flatMap_map, List.cons_append, List.nil_append, List.append_assoc]

theorem decodeStringArray_jsonArray (names : List String) :
    decodeStringArray (jsonArray (names.map jsonString)) = some names := by
  cases names with
  | nil => rfl
  | cons a rest =>
    unfold decodeStringArray
    rw [jsonArray_data]
    have hnot : ((jsonString a).data
        ++ (rest.flatMap (fun s => ',' :: (jsonString s).data) ++ [']'])) ≠ [']'] := by
      rw [jsonString_data]
      intro h
      have hq : quoteChar ≠ ']' := by decide
      simp only [List.cons_append] at h
      exact hq (List.cons.inj h).1
    simp only [if_true, hnot, if_false]
    apply decodeItems_encoded
    have h1 := encoded_items_length rest
    have h2 : 1 ≤ (jsonString a).data.length := by
      rw [jsonString_data]
      simp
    simp only [List.length_append, List.length_cons, List.length_nil]
    omega

theorem forall₂_decodeString_jsonString (names : List String) :
    List.Forall₂ (fun item name => decodeString item = some name)
      (names.map jsonString) names := by
  induction names with
  | nil => exact List.Forall₂.nil
  | cons a rest ih => exact List.Forall₂.cons (decodeString_jsonString a) ih

end Sync

/-! ## Claims about `project.go` -/

/-- C1 (code defect, evaluated): GetProjects returns the three projects with
IDs 1, 2, 3, the third element has ID 3, and GetProjectByID 3 nevertheless
returns (nil, ErrNotFound): the loop returns after comparing the first element. -/
theorem GetProjectByID_third_element_not_found :
    (GetProjects (serverClient (Body.object (some (Slice.of threeProjects))))).result
      = (Slice.of threeProjects, none)
    ∧ some (⟨3, "C"⟩ : Project) ∈ threeProjects
    ∧ (GetProjectByID (serverClient (Body.object (some (Slice.of threeProjects)))) 3).result
      = Outcome.ret (none, some GoError.ErrNotFound) := by
  refine ⟨rfl, by decide, rfl⟩

/-- C2 (code defect, evaluated): GetProjects returns the three projects named
A, B, C, the third element is named C, and GetProjectByName "C" nevertheless
returns (nil, ErrNotFound): the loop returns after comparing the first element. -/
theorem GetProjectByName_third_element_not_found :
    (GetProjects (serverClient (Body.object (some (Slice.of threeProjects))))).result
      = (Slice.of threeProjects, none)
    ∧ some (⟨3, "C"⟩ : Project) ∈ threeProjects
    ∧ (GetProjectByName (serverClient (Body.object (some (Slice.of threeProjects)))) "C").result
      = Outcome.ret (none, some GoError.ErrNotFound) := by
  refine ⟨rfl, by decide, rfl⟩

/-- C3 (counterexample): GetProjects successfully returns the one-element list
whose element is the nil pointer (the JSON body has `"projects":[null]`); no
element has ID 7 or name "X", yet GetProjectByID 7 and GetProjectByName "X"
panic on the nil element instead of returning (nil, ErrNotFound). -/
theorem lookup_not_found_counterexample :
    (GetProjects (serverClient (Body.object (some (Slice.of [none]))))).result
      = (Slice.of [none], none)
    ∧ (∀ p : Project, some p ∈ [(none : Option Project)] → p.ID ≠ 7 ∧ p.Name ≠ "X")
    ∧ (GetProjectByID (serverClient (Body.object (some (Slice.of [none])))) 7).result
      = Outcome.panic
    ∧ (GetProjectByID (serverClient (Body.object (some (Slice.of [none])))) 7).result
      ≠ Outcome.ret (none, some GoError.ErrNotFound)
    ∧ (GetProjectByName (serverClient (Body.object (some (Slice.of [none])))) "X").result
      = Outcome.panic
    ∧ (GetProjectByName (serverClient (Body.object (some (Slice.of [none])))) "X").result
      ≠ Outcome.ret (none, some GoError.ErrNotFound) := by
  refine ⟨rfl, ?_, rfl, ?_, rfl, ?_⟩
  · intro p hp
    simp at hp
  · intro h
    exact Outcome.noConfusion (Eq.trans (Eq.symm (rfl : (GetProjectByID (serverClient
      (Body.object (some (Slice.of [none])))) 7).result = Outcome.panic)) h)
  · intro h
    exact Outcome.noConfusion (Eq.trans (Eq.symm (rfl : (GetProjectByName (serverClient
      (Body.object (some (Slice.of [none])))) "X").result = Outcome.panic)) h)

/-- C3 (amended): for every project list successfully returned by GetProjects
that is empty or starts with a non-nil element: if no element has ID equal to
id, GetProjectByID returns (nil, ErrNotFound); if no element has Name equal to
name, GetProjectByName returns (nil, ErrNotFound). -/
theorem lookup_not_found {ρ σ : Type} (c : Client ρ σ) (projects : Slice (Option Project))
    (id : Int) (name : String)
    (h : (GetProjects c).result = (projects, none))
    (hfirst : projects.elems.head? ≠ some none) :
    ((∀ p : Project, some p ∈ projects.elems → p.ID ≠ id) →
      (GetProjectByID c id).result = Outcome.ret (none, some GoError.ErrNotFound))
    ∧ ((∀ p : Project, some p ∈ projects.elems → p.Name ≠ name) →
      (GetProjectByName c name).result = Outcome.ret (none, some GoError.ErrNotFound)) := by
  rw [GetProjectByID_result_of_ok c id projects h,
    GetProjectByName_result_of_ok c name projects h]
  cases hl : projects.elems with
  | nil => simp [GetProjectByID_scan_nil, GetProjectByName_scan_nil]
  | cons first rest =>
    cases first with
    | none => simp [hl] at hfirst
    | some p =>
      constructor
      · intro hno
        have := hno p (by simp [hl])
        simp [GetProjectByID_scan_cons, this]
      · intro hno
        have := hno p (by simp [hl])
        simp [GetProjectByName_scan_cons, this]

/-- Witness for C3 (amended): the list 1, 2, 3 has no ID 9 and no name "Z". -/
theorem lookup_not_found_witness :
    (GetProjectByID (serverClient (Body.object (some (Slice.of threeProjects)))) 9).result
      = Outcome.ret (none, some GoError.ErrNotFound)
    ∧ (GetProjectByName (serverClient (Body.object (some (Slice.of threeProjects)))) "Z").result
      = Outcome.ret (none, some GoError.ErrNotFound) :=
  ⟨(lookup_not_found (serverClient (Body.object (some (Slice.of threeProjects))))
      (Slice.of threeProjects) 9 "Z" rfl (by decide)).1
      (by intro p hp
          simp [Slice.elems, threeProjects] at hp
          rcases hp with rfl | rfl | rfl <;> decide),
   (lookup_not_found (serverClient (Body.object (some (Slice.of threeProjects))))
      (Slice.of threeProjects) 9 "Z" rfl (by decide)).2
      (by intro p hp
          simp [Slice.elems, threeProjects] at hp
          rcases hp with rfl | rfl | rfl <;> decide)⟩

/-- C4: whenever GetProjects fails with an error e (its error result is e, which
happens when the request builder, the transport call or the decode fails
with e), GetProjects returns (nil, e) and GetProjectByID and GetProjectByName
each return (nil, e), the same error value. -/
theorem GetProjects_error_propagates {ρ σ : Type} (c : Client ρ σ) (id : Int)
    (name : String) (e : GoError)
    (h : (GetProjects c).result.2 = some e
      ∨ c.NewRequest (GoValue.string "*") GoValue.nil
          (GoValue.ptr (GoValue.stringSlice ["projects"])) = Except.error e
      ∨ (∃ req, c.NewRequest (GoValue.string "*") GoValue.nil
          (GoValue.ptr (GoValue.stringSlice ["projects"])) = Except.ok req
          ∧ c.Do req = Except.error e)
      ∨ (∃ req res, c.NewRequest (GoValue.string "*") GoValue.nil
          (GoValue.ptr (GoValue.stringSlice ["projects"])) = Except.ok req
          ∧ c.Do req = Except.ok res ∧ c.Decode res Response.zero = Except.error e)) :
    (GetProjects c).result = (Slice.nil, some e)
    ∧ (GetProjectByID c id).result = Outcome.ret (none, some e)
    ∧ (GetProjectByName c name).result = Outcome.ret (none, some e) := by
  have key : (GetProjects c).result = (Slice.nil, some e) := by
    rcases h with h | h | ⟨req, h1, h2⟩ | ⟨req, res, h1, h2, h3⟩
    · exact GetProjects_error_nil c e h
    · simp [GetProjects, h]
    · simp [GetProjects, h1, h2]
    · simp [GetProjects, h1, h2, h3]
  exact ⟨key, GetProjectByID_result_of_error c id _ e key,
    GetProjectByName_result_of_error c name _ e key⟩

/-- Witness for C4: a transport failure "timeout" reaches the caller of all
three methods unchanged. -/
theorem GetProjects_error_propagates_witness :
    (offlineClient (GoError.other "timeout")).NewRequest (GoValue.string "*") GoValue.nil
        (GoValue.ptr (GoValue.stringSlice ["projects"])) = Except.ok ()
    ∧ (offlineClient (GoError.other "timeout")).Do () = Except.error (GoError.other "timeout")
    ∧ (GetProjects (offlineClient (GoError.other "timeout"))).result
        = (Slice.nil, some (GoError.other "timeout"))
    ∧ (GetProjectByID (offlineClient (GoError.other "timeout")) 1).result
        = Outcome.ret (none, some (GoError.other "timeout"))
    ∧ (GetProjectByName (offlineClient (GoError.other "timeout")) "A").result
        = Outcome.ret (none, some (GoError.other "timeout")) :=
  ⟨rfl, rfl, GetProjects_error_propagates (offlineClient (GoError.other "timeout")) 1 "A"
    (GoError.other "timeout") (Or.inr (Or.inr (Or.inl ⟨(), rfl, rfl⟩)))⟩

/-- C5 (counterexample): in the one builder call GetProjects makes, the second
positional argument is nil, not the resource-type list, and the third is the
list with the single entry "projects", not an absent command list: the call
does not follow the (syncToken, resourceTypes, commands) order. -/
theorem GetProjects_builder_order_counterexample :
    ∃ a1 a2 a3,
      builderCalls (GetProjects (serverClient (Body.object none))).calls = [(a1, a2, a3)]
      ∧ a2 = GoValue.nil
      ∧ a2 ≠ GoValue.stringSlice ["projects"]
      ∧ a2 ≠ GoValue.ptr (GoValue.stringSlice ["projects"])
      ∧ a3 = GoValue.ptr (GoValue.stringSlice ["projects"])
      ∧ a3 ≠ GoValue.nil :=
  ⟨GoValue.string "*", GoValue.nil, GoValue.ptr (GoValue.stringSlice ["projects"]),
    rfl, rfl, by decide, by decide, rfl, by decide⟩

/-- C5 (amended): GetProjects calls the request builder exactly once, with the
wildcard sync token "*" as first argument, nil as second argument and a
pointer to the list with the single entry "projects" as third argument. -/
theorem GetProjects_builder_call {ρ σ : Type} (c : Client ρ σ) :
    builderCalls (GetProjects c).calls
      = [(GoValue.string "*", GoValue.nil, GoValue.ptr (GoValue.stringSlice ["projects"]))] := by
  unfold GetProjects
  simp only []
  split
  · simp [builderCalls, Call.builderArgs]
  · split
    · simp [builderCalls, Call.builderArgs]
    · split <;> simp [builderCalls, Call.builderArgs]

/-- C6: when the request builder, the transport call and the decode all
succeed, GetProjects returns with a nil error exactly the Projects sequence of
the decoded response (same length, same element at every position); when the
decoder left that field as in the zero-valued response (key missing), the
result is the nil list with a nil error. -/
theorem GetProjects_returns_decoded_projects {ρ σ : Type} (c : Client ρ σ) (req : ρ)
    (res : σ) (response : Response)
    (h1 : c.NewRequest (GoValue.string "*") GoValue.nil
      (GoValue.ptr (GoValue.stringSlice ["projects"])) = Except.ok req)
    (h2 : c.Do req = Except.ok res)
    (h3 : c.Decode res Response.zero = Except.ok response) :
    (GetProjects c).result = (response.Projects, none)
    ∧ (GetProjects c).result.1.elems.length = response.Projects.elems.length
    ∧ (∀ i : Nat, (GetProjects c).result.1.elems.get? i = response.Projects.elems.get? i)
    ∧ (response.Projects = Response.zero.Projects →
        (GetProjects c).result = (Slice.nil, none)) := by
  have key := GetProjects_result_of_ok c req res response h1 h2 h3
  refine ⟨key, by rw [key], fun i => by rw [key], fun hz => ?_⟩
  rw [key, hz]
  rfl

/-- Witness for C6: a body with projects A then B yields the two projects in
that order; a body without the projects key yields the nil list, no error. -/
theorem GetProjects_returns_decoded_projects_witness :
    ((GetProjects (serverClient (Body.object (some (Slice.of
        [some ⟨1, "A"⟩, some ⟨2, "B"⟩]))))).result
      = (Slice.of [some ⟨1, "A"⟩, some ⟨2, "B"⟩], none))
    ∧ ((GetProjects (serverClient (Body.object none))).result = (Slice.nil, none)) :=
  ⟨(GetProjects_returns_decoded_projects
      (serverClient (Body.object (some (Slice.of [some ⟨1, "A"⟩, some ⟨2, "B"⟩]))))
      () (Body.object (some (Slice.of [some ⟨1, "A"⟩, some ⟨2, "B"⟩])))
      ⟨Slice.of [some ⟨1, "A"⟩, some ⟨2, "B"⟩]⟩ rfl rfl rfl).1,
   (GetProjects_returns_decoded_projects (serverClient (Body.object none))
      () (Body.object none) Response.zero rfl rfl rfl).2.2.2 rfl⟩

/-- C10: for every project list returned by GetProjects, if the list starts
with a non-nil element then GetProjectByID returns (first, nil) when the first
element has the requested ID and (nil, ErrNotFound) otherwise, whatever the
remaining elements are, and GetProjectByName does the same on the first
element's Name; any project returned with a nil error has the requested ID
(respectively Name) and is an element of the list. -/
theorem lookup_decided_by_first_element {ρ σ : Type} (c : Client ρ σ)
    (projects : Slice (Option Project)) (id : Int) (name : String)
    (h : (GetProjects c).result = (projects, none)) :
    (∀ (first : Project) (rest : List (Option Project)),
      projects.elems = some first :: rest →
        (GetProjectByID c id).result
          = (if first.ID = id then Outcome.ret (some first, none)
             else Outcome.ret (none, some GoError.ErrNotFound))
        ∧ (GetProjectByName c name).result
          = (if first.Name = name then Outcome.ret (some first, none)
             else Outcome.ret (none, some GoError.ErrNotFound)))
    ∧ (∀ p : Project, (GetProjectByID c id).result = Outcome.ret (some p, none) →
        p.ID = id ∧ some p ∈ projects.elems)
    ∧ (∀ p : Project, (GetProjectByName c name).result = Outcome.ret (some p, none) →
        p.Name = name ∧ some p ∈ projects.elems) := by
  rw [GetProjectByID_result_of_ok c id projects h,
    GetProjectByName_result_of_ok c name projects h]
  refine ⟨?_, ?_, ?_⟩
  · intro first rest hl
    rw [hl]
    exact ⟨GetProjectByID_scan_cons id first rest, GetProjectByName_scan_cons name first rest⟩
  · intro p hp
    cases hl : projects.elems with
    | nil => simp [hl, GetProjectByID_scan_nil] at hp
    | cons first rest =>
      cases first with
      | none => simp [hl, GetProjectByID_scan_nil_pointer] at hp
      | some q =>
        simp only [hl, GetProjectByID_scan_cons] at hp
        split at hp
        · simp at hp
          subst hp
          simp_all
        · simp at hp
  · intro p hp
    cases hl : projects.elems with
    | nil => simp [hl, GetProjectByName_scan_nil] at hp
    | cons first rest =>
      cases first with
      | none => simp [hl, GetProjectByName_scan_nil_pointer] at hp
      | some q =>
        simp only [hl, GetProjectByName_scan_cons] at hp
        split at hp
        · simp at hp
          subst hp
          simp_all
        · simp at hp

/-- Witness for C10: on the list 1, 2, 3 the lookups for 1 and "A" return the
first element, the lookups for 2 and "B" report not found. -/
theorem lookup_decided_by_first_element_witness :
    (GetProjectByID (serverClient (Body.object (some (Slice.of threeProjects)))) 1).result
      = Outcome.ret (some ⟨1, "A"⟩, none)
    ∧ (GetProjectByName (serverClient (Body.object (some (Slice.of threeProjects)))) "B").result
      = Outcome.ret (none, some GoError.ErrNotFound) :=
  ⟨((lookup_decided_by_first_element
      (serverClient (Body.object (some (Slice.of threeProjects))))
      (Slice.of threeProjects) 1 "B" rfl).1 ⟨1, "A"⟩ _ rfl).1,
   ((lookup_decided_by_first_element
      (serverClient (Body.object (some (Slice.of threeProjects))))
      (Slice.of threeProjects) 1 "B" rfl).1 ⟨1, "A"⟩ _ rfl).2⟩

/-! ## Claims about the request builder -/

namespace Sync

/-- C7: for a client with a non-empty API token and a well-formed base URL,
every request NewRequest produces has form field sync_token equal to "*" when
the given sync token is empty and equal to the given token otherwise, and form
field token equal to the configured API token (each a single value); and a
request is produced whenever the commands are serializable. -/
theorem NewRequest_sync_token_and_token (c : Client) (syncToken : String)
    (resourceTypes : List String) (commands : List Command)
    (_hToken : c.APIToken ≠ "") (hURL : c.BaseURL.wellFormed = true) :
    (∀ req, NewRequest c syncToken resourceTypes commands = Except.ok req →
      (syncToken = "" → req.Form.get "sync_token" = "*")
      ∧ (syncToken ≠ "" → req.Form.get "sync_token" = syncToken)
      ∧ req.Form.get "token" = c.APIToken
      ∧ req.Form.values "sync_token" = [if syncToken = "" then "*" else syncToken]
      ∧ req.Form.values "token" = [c.APIToken])
    ∧ (serializable commands = true →
        ∃ req, NewRequest c syncToken resourceTypes commands = Except.ok req) := by
  constructor
  · intro req h
    obtain ⟨encs, _, hform⟩ := NewRequest_form c syncToken resourceTypes commands req h
    rw [hform]
    by_cases hc : commands.length = 0
    · by_cases hs : syncToken = "" <;>
        simp [hc, hs, Form.get, Form.values, List.filter, List.flatMap]
    · by_cases hs : syncToken = "" <;>
        simp [hc, hs, Form.get, Form.values, List.filter, List.flatMap]
  · intro hser
    obtain ⟨encs, hm⟩ := marshalCommands_of_serializable commands hser
    exact NewRequest_produces c syncToken resourceTypes commands encs hURL hm

/-- Witness for C7: the client of the test, empty sync token, no commands. -/
theorem NewRequest_sync_token_and_token_witness :
    testClient.APIToken ≠ "" ∧ testClient.BaseURL.wellFormed = true
    ∧ (∃ req, NewRequest testClient "" [] [] = Except.ok req
        ∧ req.Form.get "sync_token" = "*" ∧ req.Form.get "token" = "12345") :=
  ⟨by decide, rfl,
    Exists.elim ((NewRequest_sync_token_and_token testClient "" [] [] (by decide) rfl).2 rfl)
      (fun req h => ⟨req, h,
        ((NewRequest_sync_token_and_token testClient "" [] [] (by decide) rfl).1 req h).1 rfl,
        ((NewRequest_sync_token_and_token testClient "" [] [] (by decide) rfl).1 req h).2.2.1⟩)⟩

/-- C8: in every request NewRequest produces, the form field resource_types
holds exactly one value, the JSON array of the names: ["all"] for an empty
list, ["projects"] for the list with the entry projects, and in general the
given names in the given order, each as a JSON string (between quotes,
unchanged, when it has no quote, backslash or control character), separated by
commas and enclosed in brackets; it is never the comma-joined list. Read back
with the JSON decoder, the value is exactly the list of the provided names
(the list with the entry all when none is provided), for all names, also
those that need escapes: it is a bracketed, comma-separated sequence of string
literals, one per name, in order, each denoting its name. -/
theorem NewRequest_resource_types (c : Client) (syncToken : String)
    (resourceTypes : List String) (commands : List Command) (req : Request)
    (h : NewRequest c syncToken resourceTypes commands = Except.ok req) :
    (∃ value, req.Form.values "resource_types" = [value]
      ∧ req.Form.get "resource_types" = value)
    ∧ (resourceTypes = [] → req.Form.get "resource_types" = "[\"all\"]")
    ∧ (resourceTypes = ["projects"] → req.Form.get "resource_types" = "[\"projects\"]")
    ∧ (resourceTypes ≠ [] → req.Form.get "resource_types"
        = "[" ++ ",".intercalate (resourceTypes.map jsonString) ++ "]")
    ∧ (resourceTypes ≠ [] →
        (∀ name ∈ resourceTypes, ∀ ch ∈ name.toList,
          ch ≠ quoteChar ∧ ch ≠ backslashChar ∧ 32 ≤ ch.toNat) →
        req.Form.get "resource_types"
          = "[" ++ ",".intercalate (resourceTypes.map (fun name => "\"" ++ name ++ "\"")) ++ "]")
    ∧ req.Form.get "resource_types" ≠ ",".intercalate resourceTypes
    ∧ decodeStringArray (req.Form.get "resource_types")
        = some (if resourceTypes = [] then ["all"] else resourceTypes)
    ∧ (∃ items, req.Form.get "resource_types" = "[" ++ ",".intercalate items ++ "]"
        ∧ List.Forall₂ (fun item name => decodeString item = some name) items
            (if resourceTypes = [] then ["all"] else resourceTypes)) := by
  obtain ⟨encs, _, hform⟩ := NewRequest_form c syncToken resourceTypes commands req h
  have hget : req.Form.get "resource_types"
      = jsonArray ((if resourceTypes.length = 0 then ["all"] else resourceTypes).map
          jsonString) := by
    rw [hform]
    by_cases hc : commands.length = 0 <;>
      simp [hc, Form.get, Form.values, List.filter, List.flatMap]
  have hvalues : req.Form.values "resource_types"
      = [jsonArray ((if resourceTypes.length = 0 then ["all"] else resourceTypes).map
          jsonString)] := by
    rw [hform]
    by_cases hc : commands.length = 0 <;>
      simp [hc, Form.values, List.filter, List.flatMap]
  have hne : ∀ hr : resourceTypes ≠ [], req.Form.get "resource_types"
      = "[" ++ ",".intercalate (resourceTypes.map jsonString) ++ "]" := by
    intro hr
    have hlen : resourceTypes.length ≠ 0 := fun h0 => hr (List.length_eq_zero.mp h0)
    rw [hget]
    simp [hlen, jsonArray]
  have hnames : (if resourceTypes.length = 0 then ["all"] else resourceTypes)
      = (if resourceTypes = [] then ["all"] else resourceTypes) := by
    by_cases hr : resourceTypes = []
    · simp [hr]
    · have hlen : resourceTypes.length ≠ 0 := fun h0 => hr (List.length_eq_zero.mp h0)
      simp [hr, hlen]
  refine ⟨⟨_, hvalues, hget⟩, ?_, ?_, hne, ?_, ?_, ?_, ?_⟩
  rotate_left 4
  · rw [hget, hnames]
    exact decodeStringArray_jsonArray _
  · refine ⟨(if resourceTypes = [] then ["all"] else resourceTypes).map jsonString, ?_, ?_⟩
    · rw [hget, hnames]
      rfl
    · exact forall₂_decodeString_jsonString _
  · intro hr
    rw [hget, hr]
    rfl
  · intro hr
    rw [hget, hr]
    rfl
  · intro hr hplain
    rw [hne hr]
    have hmap : resourceTypes.map jsonString
        = resourceTypes.map (fun name => "\"" ++ name ++ "\"") :=
      List.map_congr_left (fun name hn => jsonString_plain name (hplain name hn))
    rw [hmap]
  · by_cases hr : resourceTypes = []
    · rw [hget, hr]
      decide
    · rw [hne hr]
      exact jsonArray_ne_comma_joined resourceTypes

/-- Witness for C8: the second request of the test, resource types
["projects"] with one command; and two names that need escapes, a quote and a
backslash, whose value is escaped and reads back as the two names. -/
theorem NewRequest_resource_types_witness :
    (∃ req, NewRequest testClient "" ["projects"] [testCommand] = Except.ok req
      ∧ req.Form.get "resource_types" = "[\"projects\"]"
      ∧ decodeStringArray (req.Form.get "resource_types") = some ["projects"])
    ∧ (∃ req, NewRequest testClient "" ["a\"b", "c\\d"] [] = Except.ok req
      ∧ req.Form.get "resource_types" = "[\"a\\\"b\",\"c\\\\d\"]"
      ∧ decodeStringArray (req.Form.get "resource_types") = some ["a\"b", "c\\d"]) :=
  ⟨Exists.elim (NewRequest_produces testClient "" ["projects"] [testCommand] _ rfl rfl)
    (fun req h => ⟨req, h,
      (NewRequest_resource_types testClient "" ["projects"] [testCommand] req h).2.2.1 rfl,
      (NewRequest_resource_types testClient "" ["projects"] [testCommand]
        req h).2.2.2.2.2.2.1⟩),
   Exists.elim (NewRequest_produces testClient "" ["a\"b", "c\\d"] [] [] rfl rfl)
    (fun req h => ⟨req, h,
      ((NewRequest_resource_types testClient "" ["a\"b", "c\\d"] [] req h).2.2.2.1
        (by simp)).trans rfl,
      (NewRequest_resource_types testClient "" ["a\"b", "c\\d"] [] req h).2.2.2.2.2.2.1⟩)⟩

end Sync

end Todoist
